import Mathlib

/-!
# TodoListApp (`App.js`): goal-list state and handlers

A shallow embedding of the state held by the `App` component of
`ToDo_List_Task/TodoListApp/App.js` and of its three handlers
(`addGoalHandler`, `deleteGoalHandler`, `toggleGoalHandler`), together with the
derived header values (`doneCount` and the progress fill).

Modelling conventions:

* a JavaScript string is a Lean `String` (a sequence of code points); its
  `length` is the number of UTF-16 code units (`jsLength`);
* `String.prototype.trim` strips the ECMAScript `WhiteSpace` and
  `LineTerminator` code points from both ends (`trim`);
* `Date.now()` is an external clock: the reading is a parameter `now : Nat`
  (milliseconds since the epoch) of the handler that consults it, and
  `Date.now().toString()` is its decimal representation;
* `useState` pairs become fields of `AppState`; a handler is a function from
  the state before the event to the state after it;
* a finite JavaScript number is a rational, and `/` and `*` round their exact
  result to binary64 (`roundToDouble`).
-/

set_option autoImplicit false

namespace TodoListApp

/-! ## Strings -/

/-- ECMAScript `WhiteSpace` and `LineTerminator` code points, the characters
removed by `String.prototype.trim`. -/
def isWhiteSpace (c : Char) : Bool :=
  c.toNat == 0x0009 || c.toNat == 0x000A || c.toNat == 0x000B || c.toNat == 0x000C ||
  c.toNat == 0x000D || c.toNat == 0x0020 || c.toNat == 0x00A0 || c.toNat == 0x1680 ||
  (0x2000 ≤ c.toNat && c.toNat ≤ 0x200A) ||
  c.toNat == 0x2028 || c.toNat == 0x2029 || c.toNat == 0x202F || c.toNat == 0x205F ||
  c.toNat == 0x3000 || c.toNat == 0xFEFF

/-- Strip white space from both ends of a list of characters. -/
def trimChars (cs : List Char) : List Char :=
  (cs.dropWhile isWhiteSpace).rdropWhile isWhiteSpace

/-- The method `String.prototype.trim`. -/
def trim (s : String) : String := ⟨trimChars s.data⟩

/-- Number of UTF-16 code units of one code point. -/
def utf16Units (c : Char) : Nat := if c.toNat < 0x10000 then 1 else 2

/-- The `length` property of a JavaScript string: its number of UTF-16 code units. -/
def jsLength (s : String) : Nat := (s.data.map utf16Units).sum

/-! ## State -/

/-- A goal object `{ id, text, done }` of `goalsList`. -/
structure Goal where
  id : String
  text : String
  done : Bool
deriving DecidableEq, Repr

/-- The two `useState` cells of `App`. -/
structure AppState where
  inputText : String
  goalsList : List Goal
deriving DecidableEq, Repr

/-- Initial state: `useState('')` and `useState([])`. -/
def initialState : AppState := { inputText := "", goalsList := [] }

/-- The bound `maxLength={100}` of the `TextInput`. -/
def maxLength : Nat := 100

/-! ## Handlers -/

/-- The setter `setInputText`, wired to `onChangeText`. -/
def setInputText (text : String) (st : AppState) : AppState :=
  { st with inputText := text }

/-- The handler `addGoalHandler`; `now` is the value returned by `Date.now()`.
An empty `trimmed` is falsy, so `if (!trimmed) return;` leaves both cells as
they are. -/
def addGoalHandler (now : Nat) (st : AppState) : AppState :=
  let trimmed := trim st.inputText
  if trimmed = "" then st
  else
    { goalsList := st.goalsList ++ [{ id := toString now, text := trimmed, done := false }]
      inputText := "" }

/-- The update `prev => prev.filter(goal => goal.id !== id)`. -/
def deleteGoals (id : String) (prev : List Goal) : List Goal :=
  prev.filter (fun goal => goal.id != id)

/-- The update `prev => prev.map(goal => goal.id === id ? { ...goal, done: !goal.done } : goal)`. -/
def toggleGoals (id : String) (prev : List Goal) : List Goal :=
  prev.map (fun goal => if goal.id = id then { goal with done := !goal.done } else goal)

/-- The handler `deleteGoalHandler`. -/
def deleteGoalHandler (id : String) (st : AppState) : AppState :=
  { st with goalsList := deleteGoals id st.goalsList }

/-- The handler `toggleGoalHandler`. -/
def toggleGoalHandler (id : String) (st : AppState) : AppState :=
  { st with goalsList := toggleGoals id st.goalsList }

/-- The derived value `doneCount = goalsList.filter(g => g.done).length`. -/
def doneCount (goalsList : List Goal) : Nat :=
  (goalsList.filter (fun g => g.done)).length

/-! ## Numbers

JavaScript numbers are IEEE-754 binary64 values. The finite ones are rationals,
and an arithmetic operation returns the exact result rounded to the nearest
representable value, ties going to the even significand. Results too large to
be finite are outside this model; a quotient of a count by a positive length
and its product with `100` never are. -/

/-- Round to the nearest integer, ties to the even one. -/
def roundHalfEven (m : ℚ) : ℤ :=
  if m - ⌊m⌋ < 1 / 2 then ⌊m⌋
  else if 1 / 2 < m - ⌊m⌋ then ⌊m⌋ + 1
  else if ⌊m⌋ % 2 = 0 then ⌊m⌋ else ⌊m⌋ + 1

/-- Exponent of the unit in the last place of binary64 at a positive magnitude
`q`: 53 significant bits, and never below the subnormal spacing `2 ^ (-1074)`. -/
def ulpExponent (q : ℚ) : ℤ := max (Int.log 2 q - 52) (-1074)

/-- Binary64 rounding of a positive rational. -/
def roundPos (q : ℚ) : ℚ := roundHalfEven (q / 2 ^ ulpExponent q) * 2 ^ ulpExponent q

/-- Binary64 rounding of a rational (round to nearest, ties to even). -/
def roundToDouble (q : ℚ) : ℚ :=
  if q = 0 then 0 else if 0 < q then roundPos q else -roundPos (-q)

/-- The operator `/` on finite numbers. A zero divisor gives `NaN` or an
infinity, which are not finite numbers: `none`. -/
def jsDiv (a b : ℚ) : Option ℚ :=
  if b = 0 then none else some (roundToDouble (a / b))

/-- The operator `*` on finite numbers. -/
def jsMul (a b : ℚ) : ℚ := roundToDouble (a * b)

/-! ## Header progress -/

/-- The sub-expression `doneCount / goalsList.length` of the progress fill,
evaluated only under the guard `goalsList.length > 0 &&` of the progress bar. -/
def progressRatio (goalsList : List Goal) : Option ℚ :=
  if goalsList.length > 0 then jsDiv (doneCount goalsList) goalsList.length else none

/-- The number `(doneCount / goalsList.length) * 100` interpolated into the
`width` of the progress fill; the bar is rendered only when
`goalsList.length > 0`. -/
def progressFillWidth (goalsList : List Goal) : Option ℚ :=
  if goalsList.length > 0 then
    (jsDiv (doneCount goalsList) goalsList.length).map (fun r => jsMul r 100)
  else none

/-! ## Events -/

/-- The events the rendered tree can deliver to the handlers. -/
inductive Command where
  | changeInput (text : String)
  | commit (now : Nat)
  | toggle (id : String)
  | remove (id : String)
deriving DecidableEq, Repr

/-- One event applied to the state. -/
def step (st : AppState) : Command → AppState
  | .changeInput text => setInputText text st
  | .commit now => addGoalHandler now st
  | .toggle id => toggleGoalHandler id st
  | .remove id => deleteGoalHandler id st

/-- A finite sequence of events, applied in order. -/
def run (st : AppState) (cmds : List Command) : AppState :=
  cmds.foldl step st

/-- Every goal text is non-empty and equal to its own trim. -/
def TextsTrimmed (L : List Goal) : Prop :=
  ∀ g ∈ L, g.text ≠ "" ∧ trim g.text = g.text

/-- The input text and every goal text have at most `maxLength` code units. -/
def TextsCapped (st : AppState) : Prop :=
  jsLength st.inputText ≤ maxLength ∧ ∀ g ∈ st.goalsList, jsLength g.text ≤ maxLength

/-- The leading code points of `cs` that fit in `n` code units. -/
def acceptChars : Nat → List Char → List Char
  | _, [] => []
  | n, c :: cs => if utf16Units c ≤ n then c :: acceptChars (n - utf16Units c) cs else []

/-- One text field obeying a length bound `n`: of the entered text it keeps the
leading code points that fit in `n` code units. The `TextInput` of the app is a
component of the platform; the theorems take its behaviour as a parameter, of
which this is an instance. -/
def acceptUpTo (n : Nat) (s : String) : String := ⟨acceptChars n s.data⟩

/-! ## Lemmas on `trim` -/

theorem trimChars_dropWhile (cs : List Char) :
    (trimChars cs).dropWhile isWhiteSpace = trimChars cs := by
  rw [List.dropWhile_eq_self_iff]
  intro hl
  have hpre : trimChars cs <+: cs.dropWhile isWhiteSpace := List.rdropWhile_prefix _ _
  have hidem : (cs.dropWhile isWhiteSpace).dropWhile isWhiteSpace = cs.dropWhile isWhiteSpace :=
    List.dropWhile_idempotent _ _
  rw [List.dropWhile_eq_self_iff] at hidem
  have hl2 : 0 < (cs.dropWhile isWhiteSpace).length := lt_of_lt_of_le hl hpre.length_le
  have h0 := hidem hl2
  obtain ⟨t, ht⟩ := hpre
  have : (trimChars cs).get ⟨0, hl⟩ = (cs.dropWhile isWhiteSpace).get ⟨0, hl2⟩ := by
    simp only [List.get_eq_getElem]
    simp [← ht, List.getElem_append_left hl]
  rw [this]
  exact h0

theorem trimChars_idem (cs : List Char) : trimChars (trimChars cs) = trimChars cs := by
  have h : trimChars (trimChars cs)
      = ((trimChars cs).dropWhile isWhiteSpace).rdropWhile isWhiteSpace := rfl
  rw [h, trimChars_dropWhile]
  exact List.rdropWhile_idempotent _ _

theorem trim_idem (s : String) : trim (trim s) = trim s := by
  simp [trim, trimChars_idem]

theorem trimChars_sublist (cs : List Char) : (trimChars cs).Sublist cs :=
  (List.rdropWhile_prefix _ _).sublist.trans (List.dropWhile_sublist _)

theorem trimChars_eq_nil_of_forall (cs : List Char)
    (h : ∀ c ∈ cs, isWhiteSpace c = true) : trimChars cs = [] := by
  have h1 : cs.dropWhile isWhiteSpace = [] := by
    rw [List.dropWhile_eq_nil_iff]
    exact h
  simp [trimChars, h1, List.rdropWhile]

theorem jsLength_trim_le (s : String) : jsLength (trim s) ≤ jsLength s := by
  unfold jsLength trim
  exact ((trimChars_sublist s.data).map utf16Units).sum_le_sum (fun _ _ => Nat.zero_le _)

/-! ## Lemmas on the list updates -/

theorem toggleGoals_toggleGoals (id : String) (L : List Goal) :
    toggleGoals id (toggleGoals id L) = L := by
  unfold toggleGoals
  rw [List.map_map]
  conv_rhs => rw [← List.map_id L]
  apply List.map_congr_left
  intro g _
  obtain ⟨gid, text, done⟩ := g
  by_cases h : gid = id <;> simp [h]

theorem toggleGoals_iterate_odd (id : String) (k : Nat) (L : List Goal) :
    (toggleGoals id)^[2 * k + 1] L = toggleGoals id L := by
  induction k with
  | zero => rfl
  | succ k ih =>
    have e : 2 * (k + 1) + 1 = (2 * k + 1) + 1 + 1 := by ring
    rw [e, Function.iterate_succ_apply', Function.iterate_succ_apply', ih,
      toggleGoals_toggleGoals]

theorem toggleGoals_getElem? (id : String) (L : List Goal) (i : Nat) :
    (toggleGoals id L)[i]? =
      (L[i]?).map (fun goal => if goal.id = id then { goal with done := !goal.done } else goal) := by
  simp [toggleGoals]

theorem toggleGoalHandler_iterate (id : String) (n : Nat) (st : AppState) :
    (toggleGoalHandler id)^[n] st =
      { inputText := st.inputText, goalsList := (toggleGoals id)^[n] st.goalsList } := by
  induction n generalizing st with
  | zero => rfl
  | succ n ih =>
    rw [Function.iterate_succ_apply, ih, Function.iterate_succ_apply]
    rfl

theorem deleteGoals_eq_self (id : String) (L : List Goal)
    (h : ∀ g ∈ L, g.id ≠ id) : deleteGoals id L = L := by
  unfold deleteGoals
  rw [List.filter_eq_self]
  intro g hg
  simpa using h g hg

theorem toggleGoals_eq_self (id : String) (L : List Goal)
    (h : ∀ g ∈ L, g.id ≠ id) : toggleGoals id L = L := by
  unfold toggleGoals
  conv_rhs => rw [← List.map_id L]
  apply List.map_congr_left
  intro g hg
  simp [h g hg]

theorem deleteGoals_split (id : String) (L : List Goal)
    (hone : (L.map Goal.id).count id = 1) :
    ∃ l₁ g l₂, L = l₁ ++ g :: l₂ ∧ g.id = id ∧ deleteGoals id L = l₁ ++ l₂ := by
  have hid : id ∈ L.map Goal.id := List.count_pos_iff.mp (by omega)
  obtain ⟨g, hg, hgid⟩ := List.mem_map.mp hid
  obtain ⟨l₁, l₂, hL⟩ := List.append_of_mem hg
  refine ⟨l₁, g, l₂, hL, hgid, ?_⟩
  subst hL
  simp only [List.map_append, List.map_cons, List.count_append, List.count_cons, hgid,
    beq_self_eq_true, if_true] at hone
  have c1 : (l₁.map Goal.id).count id = 0 := by omega
  have c2 : (l₂.map Goal.id).count id = 0 := by omega
  have h1 : ∀ x ∈ l₁, x.id ≠ id := by
    intro x hx hxe
    exact List.count_eq_zero.mp c1 (hxe ▸ List.mem_map_of_mem Goal.id hx)
  have h2 : ∀ x ∈ l₂, x.id ≠ id := by
    intro x hx hxe
    exact List.count_eq_zero.mp c2 (hxe ▸ List.mem_map_of_mem Goal.id hx)
  have e1 := deleteGoals_eq_self id l₁ h1
  have e2 := deleteGoals_eq_self id l₂ h2
  unfold deleteGoals at *
  simp [List.filter_append, List.filter_cons, hgid, e1, e2]

theorem trim_eq_empty_of_forall (s : String)
    (h : ∀ c ∈ s.data, isWhiteSpace c = true) : trim s = "" := by
  unfold trim
  rw [trimChars_eq_nil_of_forall s.data h]

theorem textsTrimmed_step (st : AppState) (c : Command)
    (h : TextsTrimmed st.goalsList) : TextsTrimmed (step st c).goalsList := by
  cases c with
  | changeInput text => exact h
  | commit now =>
    show TextsTrimmed (addGoalHandler now st).goalsList
    unfold addGoalHandler
    by_cases he : trim st.inputText = ""
    · simpa [he] using h
    · simp only [he, if_false]
      intro g hg
      rcases List.mem_append.mp hg with hg | hg
      · exact h g hg
      · rw [List.mem_singleton] at hg
        subst hg
        exact ⟨he, trim_idem _⟩
  | toggle id =>
    intro g hg
    obtain ⟨g₀, hg₀, rfl⟩ := List.mem_map.mp hg
    by_cases hi : g₀.id = id
    · simpa [hi] using h g₀ hg₀
    · simpa [hi] using h g₀ hg₀
  | remove id =>
    intro g hg
    exact h g (List.mem_of_mem_filter hg)

theorem textsTrimmed_run (cmds : List Command) (st : AppState)
    (h : TextsTrimmed st.goalsList) : TextsTrimmed (run st cmds).goalsList := by
  induction cmds generalizing st with
  | nil => exact h
  | cons c cs ih => exact ih (step st c) (textsTrimmed_step st c h)

theorem ends_of_trimChars_eq (cs : List Char) (h : trimChars cs = cs) :
    (∀ c, cs.head? = some c → isWhiteSpace c = false) ∧
    (∀ c, cs.getLast? = some c → isWhiteSpace c = false) := by
  have hd : cs.dropWhile isWhiteSpace = cs := by
    have := trimChars_dropWhile cs
    rwa [h] at this
  have hr : cs.rdropWhile isWhiteSpace = cs := by
    have e : trimChars cs = (cs.dropWhile isWhiteSpace).rdropWhile isWhiteSpace := rfl
    rw [hd] at e
    rw [← e]
    exact h
  constructor
  · intro c hc
    cases cs with
    | nil => simp at hc
    | cons a t =>
      simp only [List.head?_cons, Option.some.injEq] at hc
      subst hc
      have := List.dropWhile_eq_self_iff.mp hd (by simp)
      simpa using this
  · intro c hc
    have hne : cs ≠ [] := by
      rintro rfl
      simp at hc
    have := List.rdropWhile_eq_self_iff.mp hr hne
    rw [List.getLast?_eq_getLast _ hne, Option.some.injEq] at hc
    rw [hc] at this
    simpa using this

/-! ## Lemmas on binary64 rounding -/

theorem roundHalfEven_intCast (z : ℤ) : roundHalfEven (z : ℚ) = z := by
  simp [roundHalfEven]

theorem abs_roundHalfEven_sub_le (m : ℚ) : |(roundHalfEven m : ℚ) - m| ≤ 1 / 2 := by
  unfold roundHalfEven
  have h0 : (0 : ℚ) ≤ m - ⌊m⌋ := sub_nonneg.mpr (Int.floor_le m)
  have h1 : m - ⌊m⌋ < 1 := by linarith [Int.lt_floor_add_one m]
  rw [abs_le]
  split_ifs with h2 h3 h4
  · constructor <;> linarith
  · push_cast; constructor <;> linarith
  · constructor <;> linarith
  · push_cast; constructor <;> linarith

theorem ulpExponent_le (q : ℚ) (hq : 0 < q) (k : ℤ) (hk : -1074 ≤ k)
    (hlt : q < 2 ^ (k + 53)) : ulpExponent q ≤ k := by
  unfold ulpExponent
  apply max_le _ hk
  have h2 : q < ((2 : ℕ) : ℚ) ^ (k + 53) := by exact_mod_cast hlt
  have := (Int.lt_zpow_iff_log_lt (by norm_num : 1 < 2) hq).mp h2
  omega

theorem roundPos_exact (n : ℕ) (k : ℤ) (hn0 : 0 < n) (hn : n < 2 ^ 53) (hk : -1074 ≤ k) :
    roundPos ((n : ℚ) * 2 ^ k) = (n : ℚ) * 2 ^ k := by
  have hq : (0 : ℚ) < (n : ℚ) * 2 ^ k := by positivity
  have hlt : (n : ℚ) * 2 ^ k < 2 ^ (k + 53) := by
    rw [zpow_add₀ (by norm_num : (2 : ℚ) ≠ 0), mul_comm ((2 : ℚ) ^ k)]
    apply mul_lt_mul_of_pos_right _ (by positivity)
    exact_mod_cast hn
  have he := ulpExponent_le _ hq k hk hlt
  unfold roundPos
  generalize ulpExponent ((n : ℚ) * 2 ^ k) = e at he
  obtain ⟨d, hd⟩ := Int.le.dest he
  have hk' : k = e + (d : ℤ) := by omega
  have hm : (n : ℚ) * 2 ^ k / 2 ^ e = ((n * 2 ^ d : ℕ) : ℤ) := by
    rw [hk', zpow_add₀ (by norm_num : (2 : ℚ) ≠ 0)]
    have : (2 : ℚ) ^ e ≠ 0 := by positivity
    field_simp
    ring
  rw [hm, roundHalfEven_intCast]
  rw [hk', zpow_add₀ (by norm_num : (2 : ℚ) ≠ 0), zpow_natCast]
  push_cast
  ring

theorem abs_roundPos_sub_le (q : ℚ) (hq : 0 < q) :
    |roundPos q - q| ≤ max (q * 2 ^ (-53 : ℤ)) (2 ^ (-1075 : ℤ)) := by
  unfold roundPos
  have hpos : (0 : ℚ) < 2 ^ ulpExponent q := by positivity
  have e1 : (roundHalfEven (q / 2 ^ ulpExponent q) : ℚ) * 2 ^ ulpExponent q - q =
      ((roundHalfEven (q / 2 ^ ulpExponent q) : ℚ) - q / 2 ^ ulpExponent q) * 2 ^ ulpExponent q := by
    field_simp
  rw [e1, abs_mul, abs_of_pos hpos]
  have h1 := abs_roundHalfEven_sub_le (q / 2 ^ ulpExponent q)
  have h2 : |(roundHalfEven (q / 2 ^ ulpExponent q) : ℚ) - q / 2 ^ ulpExponent q| * 2 ^ ulpExponent q
      ≤ 1 / 2 * 2 ^ ulpExponent q := mul_le_mul_of_nonneg_right h1 hpos.le
  refine le_trans h2 ?_
  unfold ulpExponent
  rcases le_total (Int.log 2 q - 52) (-1074) with h | h
  · rw [max_eq_right h]
    apply le_max_of_le_right
    norm_num
  · rw [max_eq_left h]
    apply le_max_of_le_left
    have hlog : ((2 : ℕ) : ℚ) ^ Int.log 2 q ≤ q := Int.zpow_log_le_self (by norm_num) hq
    have e2 : (1 : ℚ) / 2 * 2 ^ (Int.log 2 q - 52) = (2 : ℚ) ^ Int.log 2 q * 2 ^ (-53 : ℤ) := by
      rw [zpow_sub₀ (by norm_num : (2 : ℚ) ≠ 0)]
      norm_num
      ring
    rw [e2]
    apply mul_le_mul_of_nonneg_right _ (by positivity)
    exact_mod_cast hlog

theorem log_one_third : Int.log 2 (1 / 3 : ℚ) = -2 := by
  have hq : (0 : ℚ) < 1 / 3 := by norm_num
  apply le_antisymm
  · have : Int.log 2 (1 / 3 : ℚ) < -1 :=
      (Int.lt_zpow_iff_log_lt (by norm_num : 1 < 2) hq).mp (by norm_num)
    omega
  · exact (Int.zpow_le_iff_le_log (by norm_num : 1 < 2) hq).mp (by norm_num)

theorem roundToDouble_one_third :
    roundToDouble (1 / 3) = 6004799503160661 / 18014398509481984 := by
  have hf : ⌊(1 / 3 : ℚ) / 2 ^ (-54 : ℤ)⌋ = 6004799503160661 := by
    rw [Int.floor_eq_iff]
    norm_num
  have hr : roundHalfEven ((1 / 3 : ℚ) / 2 ^ (-54 : ℤ)) = 6004799503160661 := by
    unfold roundHalfEven
    rw [hf]
    norm_num
  have he : ulpExponent (1 / 3 : ℚ) = -54 := by
    unfold ulpExponent
    rw [log_one_third]
    norm_num
  have h0 : (1 / 3 : ℚ) ≠ 0 := by norm_num
  have hp : (0 : ℚ) < 1 / 3 := by norm_num
  unfold roundToDouble
  rw [if_neg h0, if_pos hp]
  unfold roundPos
  rw [he, hr]
  norm_num

theorem roundToDouble_exact (n : ℕ) (k : ℤ) (hn : n < 2 ^ 53) (hk : -1074 ≤ k) :
    roundToDouble ((n : ℚ) * 2 ^ k) = (n : ℚ) * 2 ^ k := by
  rcases Nat.eq_zero_or_pos n with h0 | h0
  · subst h0
    simp [roundToDouble]
  · have hq : (0 : ℚ) < (n : ℚ) * 2 ^ k := by positivity
    unfold roundToDouble
    rw [if_neg hq.ne', if_pos hq]
    exact roundPos_exact n k h0 hn hk

theorem abs_roundToDouble_sub_le (q : ℚ) (h0 : 0 ≤ q) (h1 : q ≤ 1) :
    |roundToDouble q - q| ≤ 2 ^ (-53 : ℤ) := by
  rcases h0.eq_or_lt with h | h
  · subst h
    have e : roundToDouble 0 = 0 := by simp [roundToDouble]
    rw [e, sub_zero, abs_zero]
    positivity
  · unfold roundToDouble
    rw [if_neg h.ne', if_pos h]
    refine le_trans (abs_roundPos_sub_le q h) (max_le ?_ ?_)
    · calc q * 2 ^ (-53 : ℤ) ≤ 1 * 2 ^ (-53 : ℤ) :=
            mul_le_mul_of_nonneg_right h1 (by positivity)
        _ = 2 ^ (-53 : ℤ) := one_mul _
    · exact zpow_le_zpow_right₀ (by norm_num) (by norm_num)

theorem doneCount_le_length (L : List Goal) : doneCount L ≤ L.length :=
  List.length_filter_le _ _

/-! ## Lemmas on the length bound -/

theorem sum_acceptChars_le (n : Nat) (cs : List Char) :
    ((acceptChars n cs).map utf16Units).sum ≤ n := by
  induction cs generalizing n with
  | nil => simp [acceptChars]
  | cons c cs ih =>
    unfold acceptChars
    by_cases h : utf16Units c ≤ n
    · rw [if_pos h, List.map_cons, List.sum_cons]
      have := ih (n - utf16Units c)
      omega
    · rw [if_neg h]
      simp

theorem jsLength_acceptUpTo (n : Nat) (s : String) : jsLength (acceptUpTo n s) ≤ n :=
  sum_acceptChars_le n s.data

theorem textsCapped_step (st : AppState) (c : Command) (h : TextsCapped st)
    (hc : ∀ t, c = Command.changeInput t → jsLength t ≤ maxLength) :
    TextsCapped (step st c) := by
  cases c with
  | changeInput text => exact ⟨hc text rfl, h.2⟩
  | commit now =>
    show TextsCapped (addGoalHandler now st)
    unfold addGoalHandler
    by_cases he : trim st.inputText = ""
    · simpa [he] using h
    · simp only [he, if_false]
      refine ⟨Nat.zero_le _, ?_⟩
      intro g hg
      rcases List.mem_append.mp hg with hg | hg
      · exact h.2 g hg
      · rw [List.mem_singleton] at hg
        subst hg
        exact le_trans (jsLength_trim_le _) h.1
  | toggle id =>
    refine ⟨h.1, ?_⟩
    intro g hg
    obtain ⟨g₀, hg₀, rfl⟩ := List.mem_map.mp hg
    by_cases hi : g₀.id = id
    · simpa [hi] using h.2 g₀ hg₀
    · simpa [hi] using h.2 g₀ hg₀
  | remove id =>
    refine ⟨h.1, ?_⟩
    intro g hg
    exact h.2 g (List.mem_of_mem_filter hg)

theorem textsCapped_run (cmds : List Command) (st : AppState) (h : TextsCapped st)
    (hcap : ∀ t, Command.changeInput t ∈ cmds → jsLength t ≤ maxLength) :
    TextsCapped (run st cmds) := by
  induction cmds generalizing st with
  | nil => exact h
  | cons c cs ih =>
    refine ih (step st c) (textsCapped_step st c h ?_) ?_
    · intro t ht
      exact hcap t (ht ▸ List.mem_cons_self _ _)
    · intro t ht
      exact hcap t (List.mem_cons_of_mem _ ht)

/-! ## The add handler -/

/-- C1: for every goal list `L`, clock reading and input string `s` whose trim is
non-empty (whatever its length, so in particular within the length bound),
`addGoalHandler` yields the list `L` followed by one new goal: the length is
`|L| + 1`, the first `|L|` entries are exactly `L`, and the last entry has
`text = trim s` and `done = false`; the input text is cleared. -/
theorem addGoalHandler_appends (now : Nat) (L : List Goal) (s : String)
    (hne : trim s ≠ "") :
    (addGoalHandler now { inputText := s, goalsList := L }).goalsList.length = L.length + 1 ∧
    (addGoalHandler now { inputText := s, goalsList := L }).goalsList.take L.length = L ∧
    (∃ g, (addGoalHandler now { inputText := s, goalsList := L }).goalsList.getLast? = some g ∧
      g.text = trim s ∧ g.done = false) ∧
    (addGoalHandler now { inputText := s, goalsList := L }).goalsList =
      L ++ [{ id := toString now, text := trim s, done := false }] ∧
    (addGoalHandler now { inputText := s, goalsList := L }).inputText = "" := by
  have e : addGoalHandler now { inputText := s, goalsList := L } =
      { inputText := "",
        goalsList := L ++ [{ id := toString now, text := trim s, done := false }] } := by
    simp [addGoalHandler, hne]
  rw [e]
  refine ⟨by simp, by simp, ⟨_, List.getLast?_concat _, rfl, rfl⟩, rfl, rfl⟩

/-- Instance of `addGoalHandler_appends`: adding `"  Buy milk "` to a one-goal list. -/
theorem addGoalHandler_appends_witness :
    trim "  Buy milk " ≠ "" ∧
    (addGoalHandler 1000 { inputText := "  Buy milk ", goalsList := [⟨"7", "Read book", true⟩] }
      ).goalsList = [⟨"7", "Read book", true⟩, ⟨"1000", "Buy milk", false⟩] :=
  ⟨by decide,
    (addGoalHandler_appends 1000 [⟨"7", "Read book", true⟩] "  Buy milk " (by decide)).2.2.2.1.trans
      (by decide)⟩

/-- C2: when the input text is empty or consists only of white space,
`addGoalHandler` leaves the whole state as it is: the goal list is unchanged,
no goal is created, and the input text is not cleared. -/
theorem addGoalHandler_blank_noop (now : Nat) (L : List Goal) (s : String)
    (hblank : ∀ c ∈ s.data, isWhiteSpace c = true) :
    addGoalHandler now { inputText := s, goalsList := L } = { inputText := s, goalsList := L } := by
  simp [addGoalHandler, trim_eq_empty_of_forall s hblank]

/-- Instance of `addGoalHandler_blank_noop`: an input of spaces and a tab. -/
theorem addGoalHandler_blank_noop_witness :
    (∀ c ∈ " \t  ".data, isWhiteSpace c = true) ∧
    addGoalHandler 1000 { inputText := " \t  ", goalsList := [⟨"7", "Read book", true⟩] } =
      { inputText := " \t  ", goalsList := [⟨"7", "Read book", true⟩] } :=
  ⟨by decide, addGoalHandler_blank_noop 1000 [⟨"7", "Read book", true⟩] " \t  " (by decide)⟩

/-- C8: the stored text is capped at 100 code units. The input text is written
only by `onChangeText` of the `TextInput`, which has `maxLength={100}`, and by
`setInputText('')`. So for every text field `accept` that hands over at most
`maxLength` code units, every state reached by events whose input texts obey
that bound, and every entered string `s` (in particular one whose trim is
longer than 100, such as 150 letters `x`): all goal texts of the state are
within the bound, they still are after `s` is entered and committed, and the
goal then created, if the text handed over is not blank, has the trim of that
text, within the bound. -/
theorem stored_text_capped (accept : String → String)
    (haccept : ∀ s, jsLength (accept s) ≤ maxLength)
    (cmds : List Command)
    (hcap : ∀ t, Command.changeInput t ∈ cmds → jsLength t ≤ maxLength)
    (s : String) (now : Nat) :
    (∀ g ∈ (run initialState cmds).goalsList, jsLength g.text ≤ maxLength) ∧
    (∀ g ∈ (addGoalHandler now (setInputText (accept s) (run initialState cmds))).goalsList,
      jsLength g.text ≤ maxLength) ∧
    (trim (accept s) ≠ "" →
      ∃ g, (addGoalHandler now (setInputText (accept s) (run initialState cmds))).goalsList.getLast?
          = some g ∧
        g.text = trim (accept s) ∧ g.done = false ∧ jsLength g.text ≤ maxLength) := by
  have hinit : TextsCapped initialState := by
    refine ⟨Nat.zero_le _, ?_⟩
    intro g hg
    simp [initialState] at hg
  have hrun := textsCapped_run cmds initialState hinit hcap
  have hset : TextsCapped (step (run initialState cmds) (.changeInput (accept s))) :=
    textsCapped_step _ _ hrun (fun t ht => by cases ht; exact haccept s)
  have hadd : TextsCapped
      (step (step (run initialState cmds) (.changeInput (accept s))) (.commit now)) :=
    textsCapped_step _ _ hset (fun t ht => by cases ht)
  refine ⟨hrun.2, hadd.2, ?_⟩
  intro hne
  refine ⟨{ id := toString now, text := trim (accept s), done := false }, ?_, rfl, rfl,
    le_trans (jsLength_trim_le _) (haccept s)⟩
  simp [addGoalHandler, setInputText, hne]

/-- Instance of `stored_text_capped`: 150 letters `x` entered in a field that
keeps what fits in `maxLength` code units are stored as 100 letters `x`. -/
theorem stored_text_capped_witness :
    (∀ s, jsLength (acceptUpTo maxLength s) ≤ maxLength) ∧
    (addGoalHandler 1000
      (setInputText (acceptUpTo maxLength ⟨List.replicate 150 'x'⟩) (run initialState []))
      ).goalsList = [{ id := "1000", text := ⟨List.replicate 100 'x'⟩, done := false }] ∧
    (∀ g ∈ (addGoalHandler 1000
      (setInputText (acceptUpTo maxLength ⟨List.replicate 150 'x'⟩) (run initialState []))
      ).goalsList, jsLength g.text ≤ maxLength) :=
  ⟨jsLength_acceptUpTo maxLength,
    by set_option maxRecDepth 100000 in decide,
    (stored_text_capped (acceptUpTo maxLength) (jsLength_acceptUpTo maxLength) []
      (fun _ h => absurd h (List.not_mem_nil _)) ⟨List.replicate 150 'x'⟩ 1000).2.1⟩

/-- C4 (failing input): two goals committed while `Date.now()` returns the same
reading receive the same `id`, so the ids of the resulting list are not pairwise
distinct. -/
theorem same_reading_ids_collide :
    (run initialState
      [.changeInput "Buy milk", .commit 1700000000000,
       .changeInput "Read book", .commit 1700000000000]).goalsList =
      [{ id := "1700000000000", text := "Buy milk", done := false },
       { id := "1700000000000", text := "Read book", done := false }] ∧
    ¬ ((run initialState
      [.changeInput "Buy milk", .commit 1700000000000,
       .changeInput "Read book", .commit 1700000000000]).goalsList.map Goal.id).Nodup := by
  decide

/-! ## The delete handler -/

/-- C3 (failing input): on the list reached by committing two goals at the same
clock reading, in which one id occurs twice, `deleteGoalHandler` with that id
removes both entries: the length drops from 2 to 0 and not to 1. -/
theorem deleteGoalHandler_duplicate_id_removes_both :
    run initialState [.changeInput "a", .commit 1000, .changeInput "b", .commit 1000] =
      { inputText := "", goalsList := [⟨"1000", "a", false⟩, ⟨"1000", "b", false⟩] } ∧
    "1000" ∈ ([⟨"1000", "a", false⟩, ⟨"1000", "b", false⟩] : List Goal).map Goal.id ∧
    (deleteGoalHandler "1000"
      { inputText := "", goalsList := [⟨"1000", "a", false⟩, ⟨"1000", "b", false⟩] }).goalsList
      = [] ∧
    (deleteGoalHandler "1000"
      { inputText := "", goalsList := [⟨"1000", "a", false⟩, ⟨"1000", "b", false⟩] }
      ).goalsList.length ≠ 2 - 1 := by
  decide

/-- When the id occurs exactly once in the goal list, `deleteGoalHandler` yields
a list of length `|L| - 1` in which no entry has that id, and which is `L` with
exactly the entry of that id taken out: the other entries are unchanged and
keep their relative order. The input text is untouched. -/
theorem deleteGoalHandler_removes_one (id : String) (st : AppState)
    (hone : (st.goalsList.map Goal.id).count id = 1) :
    (deleteGoalHandler id st).goalsList.length = st.goalsList.length - 1 ∧
    (∀ g ∈ (deleteGoalHandler id st).goalsList, g.id ≠ id) ∧
    (∃ l₁ g l₂, st.goalsList = l₁ ++ g :: l₂ ∧ g.id = id ∧
      (deleteGoalHandler id st).goalsList = l₁ ++ l₂) ∧
    (deleteGoalHandler id st).inputText = st.inputText := by
  obtain ⟨l₁, g, l₂, hL, hg, hdel⟩ := deleteGoals_split id st.goalsList hone
  refine ⟨?_, ?_, ⟨l₁, g, l₂, hL, hg, hdel⟩, rfl⟩
  · show (deleteGoals id st.goalsList).length = _
    rw [hdel, hL]
    simp
  · intro x hx
    have hx2 : x ∈ deleteGoals id st.goalsList := hx
    unfold deleteGoals at hx2
    simpa using (List.mem_filter.mp hx2).2

/-- Instance of `deleteGoalHandler_removes_one`: an id that occurs once, in a
list where another id occurs twice. -/
theorem deleteGoalHandler_removes_one_witness :
    (deleteGoalHandler "1001"
      { inputText := "x",
        goalsList := [⟨"1000", "a", false⟩, ⟨"1000", "b", true⟩, ⟨"1001", "c", false⟩] }
      ).goalsList.length = 3 - 1 :=
  (deleteGoalHandler_removes_one "1001"
    { inputText := "x",
      goalsList := [⟨"1000", "a", false⟩, ⟨"1000", "b", true⟩, ⟨"1001", "c", false⟩] }
    (by decide)).1

/-! ## The toggle handler -/

/-- C5: applying `toggleGoalHandler` with the same id twice gives back the whole
state (so each goal's `done` is back at its original value), and applying it an
odd number of times leaves every goal of that id with `done` negated (its `id`
and `text` as they were). -/
theorem toggleGoalHandler_twice_and_odd (id : String) (st : AppState) :
    toggleGoalHandler id (toggleGoalHandler id st) = st ∧
    ∀ (k i : Nat) (g : Goal), st.goalsList[i]? = some g → g.id = id →
      ((toggleGoalHandler id)^[2 * k + 1] st).goalsList[i]? =
        some { id := g.id, text := g.text, done := !g.done } := by
  constructor
  · show ({ inputText := st.inputText,
            goalsList := toggleGoals id (toggleGoals id st.goalsList) } : AppState) = st
    rw [toggleGoals_toggleGoals]
  · intro k i g hi hg
    rw [toggleGoalHandler_iterate]
    show ((toggleGoals id)^[2 * k + 1] st.goalsList)[i]? = _
    rw [toggleGoals_iterate_odd, toggleGoals_getElem?, hi]
    simp [hg]

/-- Instance of `toggleGoalHandler_twice_and_odd`: three toggles of the second goal. -/
theorem toggleGoalHandler_twice_and_odd_witness :
    ((toggleGoalHandler "2")^[2 * 1 + 1]
      { inputText := "", goalsList := [⟨"1", "a", false⟩, ⟨"2", "b", true⟩] }).goalsList[1]? =
      some { id := "2", text := "b", done := false } :=
  (toggleGoalHandler_twice_and_odd "2"
    { inputText := "", goalsList := [⟨"1", "a", false⟩, ⟨"2", "b", true⟩] }).2 1 1
    ⟨"2", "b", true⟩ (by decide) (by decide)

/-- C6: when no entry of the goal list has the given id, `toggleGoalHandler` and
`deleteGoalHandler` each return the state they were given: same entries, same
order, same `done` flags. -/
theorem unknown_id_noop (id : String) (st : AppState)
    (hid : id ∉ st.goalsList.map Goal.id) :
    toggleGoalHandler id st = st ∧ deleteGoalHandler id st = st := by
  have h : ∀ g ∈ st.goalsList, g.id ≠ id := by
    intro g hg he
    exact hid (he ▸ List.mem_map_of_mem Goal.id hg)
  constructor
  · show ({ inputText := st.inputText, goalsList := toggleGoals id st.goalsList } : AppState) = st
    rw [toggleGoals_eq_self id _ h]
  · show ({ inputText := st.inputText, goalsList := deleteGoals id st.goalsList } : AppState) = st
    rw [deleteGoals_eq_self id _ h]

/-- Instance of `unknown_id_noop`: an id that no goal has. -/
theorem unknown_id_noop_witness :
    toggleGoalHandler "9"
        { inputText := "x", goalsList := [⟨"1", "a", false⟩, ⟨"2", "b", true⟩] } =
      { inputText := "x", goalsList := [⟨"1", "a", false⟩, ⟨"2", "b", true⟩] } ∧
    deleteGoalHandler "9"
        { inputText := "x", goalsList := [⟨"1", "a", false⟩, ⟨"2", "b", true⟩] } =
      { inputText := "x", goalsList := [⟨"1", "a", false⟩, ⟨"2", "b", true⟩] } :=
  unknown_id_noop "9" { inputText := "x", goalsList := [⟨"1", "a", false⟩, ⟨"2", "b", true⟩] }
    (by decide)

/-- C9: `toggleGoalHandler` changes nothing but `done` flags of goals with the
given id: the list keeps its length, the entry at each position keeps its `id`
and `text`, every entry whose id differs from the given one is identical to
the entry it replaces, and the input text is untouched. -/
theorem toggleGoalHandler_frame (id : String) (st : AppState) :
    (toggleGoalHandler id st).goalsList.length = st.goalsList.length ∧
    (∀ (i : Nat) (g : Goal), st.goalsList[i]? = some g →
      ∃ g', (toggleGoalHandler id st).goalsList[i]? = some g' ∧
        g'.id = g.id ∧ g'.text = g.text ∧ (g.id ≠ id → g' = g)) ∧
    (toggleGoalHandler id st).inputText = st.inputText := by
  refine ⟨?_, ?_, rfl⟩
  · show (toggleGoals id st.goalsList).length = _
    simp [toggleGoals]
  · intro i g hi
    show ∃ g', (toggleGoals id st.goalsList)[i]? = some g' ∧ _
    rw [toggleGoals_getElem?, hi]
    by_cases hg : g.id = id
    · exact ⟨{ g with done := !g.done }, by simp [hg], rfl, rfl, fun h => absurd hg h⟩
    · exact ⟨g, by simp [hg], rfl, rfl, fun _ => rfl⟩

/-- Instance of `toggleGoalHandler_frame`: the goal that is not toggled. -/
theorem toggleGoalHandler_frame_witness :
    ∃ g', (toggleGoalHandler "2"
        { inputText := "x", goalsList := [⟨"1", "a", false⟩, ⟨"2", "b", true⟩] }).goalsList[0]?
        = some g' ∧
      g'.id = "1" ∧ g'.text = "a" ∧ ("1" ≠ "2" → g' = ⟨"1", "a", false⟩) :=
  (toggleGoalHandler_frame "2"
    { inputText := "x", goalsList := [⟨"1", "a", false⟩, ⟨"2", "b", true⟩] }).2.1 0
    ⟨"1", "a", false⟩ (by decide)

/-! ## Reachable states -/

/-- C10: in every state reached from the initial state by a finite sequence of
`changeInput`, `commit`, `toggle` and `remove` events (whatever the clock
readings), every goal of the list has a text that is non-empty and equals its
own trim: its first and its last character are not white space. -/
theorem reachable_texts_trimmed (cmds : List Command) (g : Goal)
    (hg : g ∈ (run initialState cmds).goalsList) :
    g.text ≠ "" ∧ trim g.text = g.text ∧
    (∀ c, g.text.data.head? = some c → isWhiteSpace c = false) ∧
    (∀ c, g.text.data.getLast? = some c → isWhiteSpace c = false) := by
  have hinit : TextsTrimmed initialState.goalsList := by
    intro x hx
    simp [initialState] at hx
  obtain ⟨hne, htrim⟩ := textsTrimmed_run cmds initialState hinit g hg
  have hdata : trimChars g.text.data = g.text.data := congrArg String.data htrim
  exact ⟨hne, htrim, ends_of_trimChars_eq _ hdata⟩

/-- Instance of `reachable_texts_trimmed` on a run of eight events. -/
theorem reachable_texts_trimmed_witness :
    (⟨"1001", "Read  book", false⟩ : Goal) ∈
      (run initialState
        [.changeInput "  Buy milk ", .commit 1000, .changeInput "   ", .commit 1000,
         .changeInput "\tRead  book\n", .commit 1001, .toggle "1000", .remove "1000"]).goalsList ∧
    (⟨"1001", "Read  book", false⟩ : Goal).text ≠ "" ∧
    trim (⟨"1001", "Read  book", false⟩ : Goal).text = (⟨"1001", "Read  book", false⟩ : Goal).text :=
  ⟨by decide,
    (reachable_texts_trimmed
      [.changeInput "  Buy milk ", .commit 1000, .changeInput "   ", .commit 1000,
       .changeInput "\tRead  book\n", .commit 1001, .toggle "1000", .remove "1000"]
      ⟨"1001", "Read  book", false⟩ (by decide)).1,
    (reachable_texts_trimmed
      [.changeInput "  Buy milk ", .commit 1000, .changeInput "   ", .commit 1000,
       .changeInput "\tRead  book\n", .commit 1001, .toggle "1000", .remove "1000"]
      ⟨"1001", "Read  book", false⟩ (by decide)).2.1⟩

/-! ## Header progress -/

/-- C7 (as stated, refuted): for the empty list no ratio is computed at all (the
progress bar is not rendered), so the ratio is not `0`; and with 1 goal done
of 3 the quotient `doneCount / goalsList.length` is the binary64 number
`6004799503160661 / 2 ^ 54`, which is not the rational `1 / 3`. -/
theorem progressRatio_counterexample :
    progressRatio [] = none ∧ progressRatio [] ≠ some 0 ∧
    doneCount [⟨"1", "a", true⟩, ⟨"2", "b", false⟩, ⟨"3", "c", false⟩] = 1 ∧
    progressRatio [⟨"1", "a", true⟩, ⟨"2", "b", false⟩, ⟨"3", "c", false⟩] =
      some (6004799503160661 / 18014398509481984) ∧
    (6004799503160661 / 18014398509481984 : ℚ) ≠ 1 / 3 := by
  refine ⟨rfl, by simp [progressRatio], by decide, ?_, by norm_num⟩
  have hd : doneCount [⟨"1", "a", true⟩, ⟨"2", "b", false⟩, ⟨"3", "c", false⟩] = 1 := by decide
  simp only [progressRatio, jsDiv, hd, List.length_cons, List.length_nil]
  norm_num
  exact roundToDouble_one_third

/-- C7 (amended): `doneCount` is the number of entries with `done = true` and the
total is the length of the list. When the total is `0` no ratio is computed and
no progress fill is rendered. When the total is positive the ratio is
`doneCount / total` rounded to the nearest binary64 number, within `2 ^ (-53)`
of the rational `doneCount / total`, and the fill width is that ratio times
`100`, rounded likewise; both are exact whenever `doneCount / total` is
`n * 2 ^ k` for an integer `n < 2 ^ 46` (every total that is a power of two), so
2 done of 4 gives `1 / 2` and the width `50`. -/
theorem progress_metric (L : List Goal) :
    doneCount L = L.countP (fun g => g.done) ∧
    doneCount L ≤ L.length ∧
    (L.length = 0 → progressRatio L = none ∧ progressFillWidth L = none) ∧
    (0 < L.length → ∃ r : ℚ,
      progressRatio L = some r ∧
      r = roundToDouble ((doneCount L : ℚ) / (L.length : ℚ)) ∧
      progressFillWidth L = some (roundToDouble (r * 100)) ∧
      |r - (doneCount L : ℚ) / (L.length : ℚ)| ≤ 2 ^ (-53 : ℤ) ∧
      (∀ (n : ℕ) (k : ℤ), n < 2 ^ 46 → -1074 ≤ k →
        (doneCount L : ℚ) / (L.length : ℚ) = (n : ℚ) * 2 ^ k →
        r = (doneCount L : ℚ) / (L.length : ℚ) ∧
        roundToDouble (r * 100) = (doneCount L : ℚ) / (L.length : ℚ) * 100)) := by
  refine ⟨?_, doneCount_le_length L, ?_, ?_⟩
  · simp [doneCount, List.countP_eq_length_filter]
  · intro h
    simp [progressRatio, progressFillWidth, h]
  · intro h
    have hne : (L.length : ℚ) ≠ 0 := by exact_mod_cast h.ne'
    have hpos : (0 : ℚ) < (L.length : ℚ) := by exact_mod_cast h
    have hle : (doneCount L : ℚ) / (L.length : ℚ) ≤ 1 := by
      rw [div_le_one hpos]
      exact_mod_cast doneCount_le_length L
    have hge : (0 : ℚ) ≤ (doneCount L : ℚ) / (L.length : ℚ) := by positivity
    refine ⟨roundToDouble ((doneCount L : ℚ) / (L.length : ℚ)), ?_, rfl, ?_,
      abs_roundToDouble_sub_le _ hge hle, ?_⟩
    · simp [progressRatio, jsDiv, h, hne]
    · simp [progressFillWidth, jsDiv, jsMul, h, hne]
    · intro n k hn hk he
      have hn53 : n < 2 ^ 53 := lt_trans hn (by norm_num)
      have h100 : 100 * n < 2 ^ 53 := by omega
      have e1 : roundToDouble ((doneCount L : ℚ) / (L.length : ℚ)) =
          (doneCount L : ℚ) / (L.length : ℚ) := by
        rw [he]
        exact roundToDouble_exact n k hn53 hk
      refine ⟨e1, ?_⟩
      rw [e1, he]
      have e2 : (n : ℚ) * 2 ^ k * 100 = ((100 * n : ℕ) : ℚ) * 2 ^ k := by
        push_cast
        ring
      rw [e2]
      exact roundToDouble_exact (100 * n) k h100 hk

/-- Instance of `progress_metric`: 2 goals done of 4 give the ratio `1 / 2` and the width `50`. -/
theorem progress_metric_witness :
    progressRatio
        [⟨"1", "a", true⟩, ⟨"2", "b", false⟩, ⟨"3", "c", true⟩, ⟨"4", "d", false⟩] = some (1 / 2) ∧
    progressFillWidth
        [⟨"1", "a", true⟩, ⟨"2", "b", false⟩, ⟨"3", "c", true⟩, ⟨"4", "d", false⟩] = some 50 := by
  obtain ⟨r, h1, -, h3, -, h5⟩ :=
    (progress_metric
      [⟨"1", "a", true⟩, ⟨"2", "b", false⟩, ⟨"3", "c", true⟩, ⟨"4", "d", false⟩]).2.2.2
      (by decide)
  have hd : doneCount
      [⟨"1", "a", true⟩, ⟨"2", "b", false⟩, ⟨"3", "c", true⟩, ⟨"4", "d", false⟩] = 2 := by decide
  obtain ⟨h6, h7⟩ := h5 1 (-1) (by norm_num) (by norm_num) (by rw [hd]; norm_num)
  rw [hd] at h6 h7
  constructor
  · rw [h1, h6]
    norm_num
  · rw [h3, h7]
    norm_num

end TodoListApp
